import Mathlib

/-!
Shallow embedding of the rs-bucket-filter crate.

Mutable state (`&mut D`, stateful `FnMut` closures) is modelled by explicit
state passing: a Rust `FnMut(&mut D, ...) -> Result<T, Event>` becomes a Lean
function `D → ... → Except Event T × D`.  The ordered containers
`BTreeMap<Bucket, B>` and `BTreeSet<Bucket>` are modelled as association
lists / lists with the exact insert/lookup/clear protocol the crate uses
(`insert` returning the previous value resp. a fresh-insertion flag,
`clear` producing the empty container).  `f32` cost values are modelled as
exact rationals (`ℚ`), which excludes NaN/rounding but keeps the ordering
logic of the source.
-/

/-- Bucket identifier (src/bucket.rs): a named partition of the slow source. -/
structure Bucket where
  name : String
deriving DecidableEq

/-- Gets the name of this bucket as str (src/bucket.rs, `Bucket::as_str`). -/
def Bucket.as_str (b : Bucket) : String := b.name

/-- Creates a bucket from a checked string; no check will be done by this
library (src/bucket.rs, `Bucket::new_checked`). -/
def Bucket.new_checked (checked : String) : Bucket := ⟨checked⟩

/-- The Rust `derive(PartialOrd, Ord)` on the single-field struct orders
buckets by the `name` field (byte-lexicographic on UTF-8, which agrees with
Lean's lexicographic `String` order). -/
instance : LT Bucket := ⟨fun a b => a.name < b.name⟩

instance (a b : Bucket) : Decidable (a < b) := by
  unfold LT.lt instLTBucket
  exact inferInstanceAs (Decidable (a.name < b.name))

/-- A list of events, i.e. errors (src/evt.rs). -/
inductive Event where
  | UnexpectedError : String → Event
  | UnableToConnect : String → Event
deriving DecidableEq

/-- List of bloom check results (src/bloom.rs). -/
inductive BloomResult where
  | MayExist
  | Missing
deriving DecidableEq

/-- Lookup in the association-list model of `BTreeMap<Bucket, B>`: the value
of the first pair whose key matches, as `BTreeMap::get`. -/
def mapLookup {B : Type} (m : List (Bucket × B)) (k : Bucket) : Option B :=
  match m with
  | [] => none
  | (k', v') :: t => if k' = k then some v' else mapLookup t k

/-- Insert in the association-list model of `BTreeMap<Bucket, B>`: replaces
the value at an existing key and returns the previous value, or appends a
fresh pair and returns `none` — the contract of `BTreeMap::insert`. -/
def mapInsert {B : Type} (m : List (Bucket × B)) (k : Bucket) (v : B) :
    Option B × List (Bucket × B) :=
  match m with
  | [] => (none, [(k, v)])
  | (k', v') :: t =>
    if k' = k then (some v', (k, v) :: t)
    else
      let r := mapInsert t k v
      (r.1, (k', v') :: r.2)

/-- Insert in the list model of `BTreeSet<Bucket>`: returns whether the value
was newly inserted, the contract of `BTreeSet::insert`. -/
def setInsert (s : List Bucket) (k : Bucket) : Bool × List Bucket :=
  if k ∈ s then (false, s) else (true, s ++ [k])

/-- Gets sub buckets from a db and gets some of them (src/sub.rs,
`get_sub_buckets`).  `get_all = !push_down` selects the fetch argument
(`none` = return everything, `some filter_config` = filter remotely);
`local_filter_required = get_all || double_check` selects local filtering. -/
def get_sub_buckets {D C S : Type} (shared_db : D) (b : Bucket)
    (get_sub : D → Bucket → Option C → Except Event (List S) × D)
    (filter : List S → C → List S) (filter_config : C)
    (push_down : Bool) (double_check : Bool) : Except Event (List S) × D :=
  let get_all : Bool := !push_down
  let fetched :=
    match get_all with
    | true => get_sub shared_db b none
    | false => get_sub shared_db b (some filter_config)
  match fetched with
  | (.error e, d') => (.error e, d')
  | (.ok sub_buckets, d') =>
    let local_filter_required : Bool := get_all || double_check
    match local_filter_required with
    | true => (.ok (filter sub_buckets filter_config), d')
    | false => (.ok sub_buckets, d')

/-- Creates a new closure which gets sub buckets (src/sub.rs,
`get_sub_buckets_new`). -/
def get_sub_buckets_new {D C S : Type}
    (get_sub : D → Bucket → Option C → Except Event (List S) × D)
    (filter : List S → C → List S) (pushdown : C → Bool) :
    D → Bucket → C → Bool → Except Event (List S) × D :=
  fun shared b cfg double_check =>
    get_sub_buckets shared b get_sub filter cfg (pushdown cfg) double_check

/-- Creates a closure which checks if a remote filter must be used or not
(src/sub.rs, `pushdown_by_storage_new`); `f32` modelled as `ℚ`. -/
def pushdown_by_storage_new {C : Type} (estimate_ix_scan : C → ℚ)
    (estimate_sq_scan : C → ℚ) (ix_scan_cost : ℚ) (sq_scan_cost : ℚ) :
    C → Bool :=
  fun filter_cfg =>
    let ix_cost : ℚ := ix_scan_cost * estimate_ix_scan filter_cfg
    let sq_cost : ℚ := sq_scan_cost * estimate_sq_scan filter_cfg
    let scan_all : Bool := decide (sq_cost < ix_cost)
    let filter_by_remote : Bool := !scan_all
    filter_by_remote

/-- Gets values from a slow db if the values may exist (src/bloom.rs,
`get_or_skip_if_missing`). -/
def get_or_skip_if_missing {D F T : Type} (bloom : Bucket → F → BloomResult)
    (shared_db : D) (bucket : Bucket)
    (getter : D → Bucket → F → Except Event (List T) × D) (filter : F) :
    Except Event (List T) × D :=
  match bloom bucket filter with
  | .Missing => (.ok [], shared_db)
  | .MayExist => getter shared_db bucket filter

/-- One step of the fold in `update_bloom_bits`: insert the pair, counting
`1 + tot` exactly when `insert` returned `None`. -/
def bloomFoldStep {B : Type} (acc : Nat × List (Bucket × B))
    (pair : Bucket × B) : Nat × List (Bucket × B) :=
  match mapInsert acc.2 pair.1 pair.2 with
  | (none, m2) => (acc.1 + 1, m2)
  | (some _, m2) => (acc.1, m2)

/-- Gets bloom bits and updates the bloom bits container (src/bloom.rs,
`update_bloom_bits`): clears the container, fetches the pair list (the clear
already happened when the fetch fails), then folds inserts counting fresh
keys. -/
def update_bloom_bits {D B : Type} (_bloom_bits : List (Bucket × B))
    (shared_db : D)
    (get_bloom_bits : D → Bucket → Except Event (List (Bucket × B)) × D)
    (bloom_bucket : Bucket) :
    Except Event Nat × List (Bucket × B) × D :=
  match get_bloom_bits shared_db bloom_bucket with
  | (.error e, d') => (.error e, [], d')
  | (.ok v, d') =>
    let r := v.foldl bloomFoldStep (0, [])
    (.ok r.1, r.2, d')

/-- Checks if values may exist or not (src/bloom.rs, `bloom_check`). -/
def bloom_check {B F : Type} (bloom_bits : List (Bucket × B)) (hash : F → B)
    (filter : F) (check : B → B → BloomResult) (b : Bucket) : BloomResult :=
  match mapLookup bloom_bits b with
  | none => BloomResult.Missing
  | some found => check found (hash filter)

/-- Creates a new checker which uses closures to compute hash / check bloom
bits (src/bloom.rs, `bloom_check_new`). -/
def bloom_check_new {B F : Type} (hash : F → B) (check : B → B → BloomResult) :
    List (Bucket × B) → F → Bucket → BloomResult :=
  fun bits filter b => bloom_check bits hash filter check b

/-- Scans from a slow db if a bucket is in a cache (src/cache.rs,
`get_or_skip_if_bucket_missing`). -/
def get_or_skip_if_bucket_missing {D F T : Type} (cache : Bucket → Bool)
    (shared_db : D) (bucket : Bucket)
    (getter : D → Bucket → F → Except Event (List T) × D) (filter : F) :
    Except Event (List T) × D :=
  let bucket_exists : Bool := cache bucket
  match bucket_exists with
  | true => getter shared_db bucket filter
  | false => (.ok [], shared_db)

/-- One step of the fold in `update_cache_btree`: set insertion, counting
`cnt + tot` exactly when the insertion was fresh. -/
def cacheFoldStep (acc : Nat × List Bucket) (b : Bucket) : Nat × List Bucket :=
  match setInsert acc.2 b with
  | (true, s2) => (acc.1 + 1, s2)
  | (false, s2) => (acc.1, s2)

/-- Gets list of buckets and updates the cache of buckets (src/cache.rs,
`update_cache_btree`): clears the set, fetches the name list (the clear
already happened when the fetch fails), converts each name with
`Bucket::new_checked` and folds inserts counting fresh insertions. -/
def update_cache_btree {D : Type} (_cache : List Bucket) (shared_db : D)
    (list_buckets : D → Except Event (List String) × D) :
    Except Event Nat × List Bucket × D :=
  match list_buckets shared_db with
  | (.error e, d') => (.error e, [], d')
  | (.ok bucket_names, d') =>
    let buckets := bucket_names.map Bucket.new_checked
    let r := buckets.foldl cacheFoldStep (0, [])
    (.ok r.1, r.2, d')

/-- Bloom bits of the example program (examples/bloom/pg-get-or-skip):
`packed: [u128; 2]`, 256 bits; modelled with `Nat` components (bitwise and
never leaves the u128 range). -/
structure BloomBits where
  lo : Nat
  hi : Nat
deriving DecidableEq

/-- Componentwise bitwise intersection (example `BloomBits::and`). -/
def BloomBits.and (a b : BloomBits) : BloomBits :=
  ⟨a.lo &&& b.lo, a.hi &&& b.hi⟩

/-- The example comparator (examples/bloom/pg-get-or-skip, `db_check`):
intersect the stored and computed signatures and compare the intersection
with the computed one. -/
def db_check (a b : BloomBits) : BloomResult :=
  match BloomBits.and a b == b with
  | true => BloomResult.MayExist
  | false => BloomResult.Missing

/-- Instrumentation: wraps a row getter so the threaded state also counts
how many times the getter ran. -/
def countGetter {D F T : Type}
    (g : D → Bucket → F → Except Event (List T) × D) :
    D × Nat → Bucket → F → Except Event (List T) × (D × Nat) :=
  fun s b f =>
    let r := g s.1 b f
    (r.1, (r.2, s.2 + 1))

/-- Instrumentation: wraps a sub-bucket fetcher so the threaded state also
logs the optional filter argument of every call. -/
def logGetSub {D C S : Type}
    (g : D → Bucket → Option C → Except Event (List S) × D) :
    D × List (Option C) → Bucket → Option C →
      Except Event (List S) × (D × List (Option C)) :=
  fun s b oc =>
    let r := g s.1 b oc
    (r.1, (r.2, s.2 ++ [oc]))

/-- The value of the last pair of `v` whose key is `j`, if any: the value a
sequence of map inserts leaves behind ("last write wins for value"). -/
def lastVal {B : Type} (v : List (Bucket × B)) (j : Bucket) : Option B :=
  match v with
  | [] => none
  | (k, b) :: t =>
    match lastVal t j with
    | some x => some x
    | none => if k = j then some b else none

theorem mapInsert_fst {B : Type} (m : List (Bucket × B)) (k : Bucket) (v : B) :
    (mapInsert m k v).1 = mapLookup m k := by
  induction m with
  | nil => rfl
  | cons p t ih =>
    obtain ⟨k', v'⟩ := p
    by_cases h : k' = k <;> simp [mapInsert, mapLookup, h, ih]

instance {B : Type} (o : Option B) : Decidable (o = none) :=
  match o with
  | none => isTrue rfl
  | some _ => isFalse (fun h => Option.noConfusion h)

theorem mapLookup_eq_none {B : Type} (m : List (Bucket × B)) (k : Bucket) :
    mapLookup m k = none ↔ k ∉ m.map Prod.fst := by
  induction m with
  | nil => simp [mapLookup]
  | cons p t ih =>
    obtain ⟨k', v'⟩ := p
    by_cases h : k' = k
    · subst h
      simp [mapLookup]
    · simp only [mapLookup, if_neg h, List.map_cons, List.mem_cons, ih]
      constructor
      · intro hk hor
        rcases hor with hor | hor
        · exact h hor.symm
        · exact hk hor
      · intro hk hmem
        exact hk (Or.inr hmem)

theorem mapLookup_mapInsert {B : Type} (m : List (Bucket × B)) (k j : Bucket)
    (v : B) :
    mapLookup (mapInsert m k v).2 j
      = if k = j then some v else mapLookup m j := by
  induction m with
  | nil =>
    by_cases hj : k = j <;> simp [mapInsert, mapLookup, hj]
  | cons p t ih =>
    obtain ⟨k', v'⟩ := p
    by_cases h : k' = k
    · subst h
      by_cases hj : k' = j <;> simp [mapInsert, mapLookup, hj]
    · by_cases hj : k' = j
      · subst hj
        have hk : ¬ k = k' := fun hh => h hh.symm
        simp [mapInsert, mapLookup, h, hk]
      · simp [mapInsert, mapLookup, h, hj, ih]

theorem mapInsert_keys {B : Type} (m : List (Bucket × B)) (k : Bucket) (v : B) :
    (mapInsert m k v).2.map Prod.fst
      = if mapLookup m k = none then m.map Prod.fst ++ [k]
        else m.map Prod.fst := by
  induction m with
  | nil => simp [mapInsert, mapLookup]
  | cons p t ih =>
    obtain ⟨k', v'⟩ := p
    by_cases h : k' = k
    · simp [mapInsert, mapLookup, h]
    · by_cases ht : mapLookup t k = none <;>
        simp [mapInsert, mapLookup, h, ht, ih]

theorem mapInsert_length {B : Type} (m : List (Bucket × B)) (k : Bucket)
    (v : B) :
    (mapInsert m k v).2.length
      = if mapLookup m k = none then m.length + 1 else m.length := by
  have h := congrArg List.length (mapInsert_keys m k v)
  by_cases hm : mapLookup m k = none
  · simp only [hm, if_pos] at h ⊢
    simpa using h
  · simp only [hm, if_neg, if_false] at h ⊢
    simpa using h

theorem bloomFoldStep_eq {B : Type} (t : Nat) (m : List (Bucket × B))
    (k : Bucket) (b : B) :
    bloomFoldStep (t, m) (k, b)
      = (if mapLookup m k = none then t + 1 else t, (mapInsert m k b).2) := by
  unfold bloomFoldStep
  rcases hr : mapInsert m k b with ⟨o, m2⟩
  have h1 : mapLookup m k = o := by
    rw [← mapInsert_fst m k b, hr]
  cases o with
  | none => simp [hr, h1]
  | some w => simp [hr, h1]

theorem cacheFoldStep_eq (t : Nat) (s : List Bucket) (b : Bucket) :
    cacheFoldStep (t, s) b
      = (if b ∈ s then t else t + 1, if b ∈ s then s else s ++ [b]) := by
  unfold cacheFoldStep setInsert
  by_cases h : b ∈ s <;> simp [h]

theorem bloomFold_count_length {B : Type} (v : List (Bucket × B)) (t : Nat)
    (m : List (Bucket × B)) :
    (v.foldl bloomFoldStep (t, m)).1 + m.length
      = t + (v.foldl bloomFoldStep (t, m)).2.length := by
  induction v generalizing t m with
  | nil => simp
  | cons p tl ih =>
    obtain ⟨k, b⟩ := p
    rw [List.foldl_cons, bloomFoldStep_eq]
    by_cases hm : mapLookup m k = none
    · have hih := ih (t + 1) (mapInsert m k b).2
      have hlen := mapInsert_length m k b
      rw [if_pos hm] at *
      omega
    · have hih := ih t (mapInsert m k b).2
      have hlen := mapInsert_length m k b
      rw [if_neg hm] at *
      omega

theorem bloomFold_lookup {B : Type} (v : List (Bucket × B)) (t : Nat)
    (m : List (Bucket × B)) (j : Bucket) :
    mapLookup (v.foldl bloomFoldStep (t, m)).2 j
      = match lastVal v j with
        | some x => some x
        | none => mapLookup m j := by
  induction v generalizing t m with
  | nil => simp [lastVal]
  | cons p tl ih =>
    obtain ⟨k, b⟩ := p
    rw [List.foldl_cons, bloomFoldStep_eq]
    rw [ih]
    cases hlast : lastVal tl j with
    | some x => simp [lastVal, hlast]
    | none =>
      simp only [lastVal, hlast]
      by_cases hj : k = j <;>
        simp [mapLookup_mapInsert, hj]

theorem bloomFold_keys_mem {B : Type} (v : List (Bucket × B)) (t : Nat)
    (m : List (Bucket × B)) (j : Bucket) :
    j ∈ (v.foldl bloomFoldStep (t, m)).2.map Prod.fst
      ↔ j ∈ m.map Prod.fst ∨ j ∈ v.map Prod.fst := by
  induction v generalizing t m with
  | nil => simp
  | cons p tl ih =>
    obtain ⟨k, b⟩ := p
    rw [List.foldl_cons, bloomFoldStep_eq]
    rw [ih]
    rw [mapInsert_keys]
    by_cases hm : mapLookup m k = none
    · rw [if_pos hm]
      simp only [List.mem_append, List.mem_singleton, List.map_cons,
        List.mem_cons]
      tauto
    · rw [if_neg hm]
      have hk : k ∈ m.map Prod.fst := by
        by_contra hc
        exact hm ((mapLookup_eq_none m k).mpr hc)
      simp only [List.map_cons, List.mem_cons]
      constructor
      · tauto
      · rintro (hj | hj | hj)
        · exact Or.inl hj
        · exact Or.inl (hj ▸ hk)
        · exact Or.inr hj

theorem bloomFold_keys_nodup {B : Type} (v : List (Bucket × B)) (t : Nat)
    (m : List (Bucket × B)) (hm : (m.map Prod.fst).Nodup) :
    ((v.foldl bloomFoldStep (t, m)).2.map Prod.fst).Nodup := by
  induction v generalizing t m with
  | nil => simpa
  | cons p tl ih =>
    obtain ⟨k, b⟩ := p
    rw [List.foldl_cons, bloomFoldStep_eq]
    apply ih
    rw [mapInsert_keys]
    by_cases hmk : mapLookup m k = none
    · rw [if_pos hmk]
      have hk : k ∉ m.map Prod.fst := (mapLookup_eq_none m k).mp hmk
      rw [List.nodup_append]
      refine ⟨hm, List.nodup_singleton k, ?_⟩
      intro x hx hx2
      rw [List.mem_singleton] at hx2
      subst hx2
      exact hk hx
    · rw [if_neg hmk]
      exact hm

theorem cacheFold_count_length (v : List Bucket) (t : Nat) (s : List Bucket) :
    (v.foldl cacheFoldStep (t, s)).1 + s.length
      = t + (v.foldl cacheFoldStep (t, s)).2.length := by
  induction v generalizing t s with
  | nil => simp
  | cons b tl ih =>
    rw [List.foldl_cons, cacheFoldStep_eq]
    by_cases hb : b ∈ s
    · have hih := ih t s
      rw [if_pos hb, if_pos hb]
      omega
    · have hih := ih (t + 1) (s ++ [b])
      rw [if_neg hb, if_neg hb]
      simp only [List.length_append, List.length_singleton] at hih ⊢
      omega

theorem cacheFold_mem (v : List Bucket) (t : Nat) (s : List Bucket)
    (j : Bucket) :
    j ∈ (v.foldl cacheFoldStep (t, s)).2 ↔ j ∈ s ∨ j ∈ v := by
  induction v generalizing t s with
  | nil => simp
  | cons b tl ih =>
    rw [List.foldl_cons, cacheFoldStep_eq]
    by_cases hb : b ∈ s
    · rw [if_pos hb, if_pos hb, ih]
      simp only [List.mem_cons]
      constructor
      · tauto
      · rintro (hj | hj | hj)
        · exact Or.inl hj
        · exact Or.inl (hj ▸ hb)
        · exact Or.inr hj
    · rw [if_neg hb, if_neg hb, ih]
      simp only [List.mem_append, List.mem_singleton, List.mem_cons]
      tauto

theorem cacheFold_nodup (v : List Bucket) (t : Nat) (s : List Bucket)
    (hs : s.Nodup) :
    (v.foldl cacheFoldStep (t, s)).2.Nodup := by
  induction v generalizing t s with
  | nil => simpa
  | cons b tl ih =>
    rw [List.foldl_cons, cacheFoldStep_eq]
    by_cases hb : b ∈ s
    · rw [if_pos hb, if_pos hb]
      exact ih t s hs
    · rw [if_neg hb, if_neg hb]
      apply ih
      rw [List.nodup_append]
      refine ⟨hs, List.nodup_singleton b, ?_⟩
      intro x hx hx2
      rw [List.mem_singleton] at hx2
      subst hx2
      exact hb hx

theorem get_sub_buckets_eq {D C S : Type} (db : D) (b : Bucket)
    (g : D → Bucket → Option C → Except Event (List S) × D)
    (f : List S → C → List S) (cfg : C) (pd dc : Bool) :
    get_sub_buckets db b g f cfg pd dc
      = ((g db b (if pd then some cfg else none)).1.map
            (fun v => if (!pd || dc) then f v cfg else v),
          (g db b (if pd then some cfg else none)).2) := by
  cases pd <;> cases dc
  · rcases hg : g db b none with ⟨r, d'⟩
    cases r <;> simp [get_sub_buckets, hg, Except.map]
  · rcases hg : g db b none with ⟨r, d'⟩
    cases r <;> simp [get_sub_buckets, hg, Except.map]
  · rcases hg : g db b (some cfg) with ⟨r, d'⟩
    cases r <;> simp [get_sub_buckets, hg, Except.map]
  · rcases hg : g db b (some cfg) with ⟨r, d'⟩
    cases r <;> simp [get_sub_buckets, hg, Except.map]

theorem get_sub_buckets_log {D C S : Type} (db : D) (l : List (Option C))
    (b : Bucket) (g : D → Bucket → Option C → Except Event (List S) × D)
    (f : List S → C → List S) (cfg : C) (pd dc : Bool) :
    (get_sub_buckets (db, l) b (logGetSub g) f cfg pd dc).2.2
      = l ++ [if pd then some cfg else none] := by
  rw [get_sub_buckets_eq]
  cases pd <;> simp [logGetSub]

theorem update_bloom_bits_ok {D B : Type} (m0 : List (Bucket × B)) (db : D)
    (v : List (Bucket × B)) (bb : Bucket) :
    update_bloom_bits m0 db (fun d _ => (.ok v, d)) bb
      = (.ok (v.foldl bloomFoldStep (0, [])).1,
         (v.foldl bloomFoldStep (0, [])).2, db) := rfl

theorem update_cache_btree_ok {D : Type} (c0 : List Bucket) (db : D)
    (names : List String) :
    update_cache_btree c0 db (fun d => (.ok names, d))
      = (.ok ((names.map Bucket.new_checked).foldl cacheFoldStep (0, [])).1,
         ((names.map Bucket.new_checked).foldl cacheFoldStep (0, [])).2, db) :=
  rfl

theorem bloomFold_count_distinct {B : Type} (v : List (Bucket × B)) :
    (v.foldl bloomFoldStep (0, ([] : List (Bucket × B)))).1
      = (v.map Prod.fst).dedup.length := by
  have h1 := bloomFold_count_length v 0 []
  have h2 := bloomFold_keys_nodup v 0 [] (by simp)
  have h3 : ((v.foldl bloomFoldStep (0, [])).2.map Prod.fst).toFinset
      = (v.map Prod.fst).toFinset := by
    apply Finset.ext
    intro j
    simp only [List.mem_toFinset]
    rw [bloomFold_keys_mem]
    simp
  have h4 := List.toFinset_card_of_nodup h2
  have h5 := List.card_toFinset (v.map Prod.fst)
  rw [h3, h5] at h4
  simp only [List.length_nil] at h1
  have h6 : (v.foldl bloomFoldStep (0, ([] : List (Bucket × B)))).1
      = (v.foldl bloomFoldStep (0, ([] : List (Bucket × B)))).2.length := by
    omega
  rw [h6, ← List.length_map _ Prod.fst, ← h4]

theorem cacheFold_count_distinct (v : List Bucket) :
    (v.foldl cacheFoldStep (0, ([] : List Bucket))).1 = v.dedup.length := by
  have h1 := cacheFold_count_length v 0 []
  have h2 := cacheFold_nodup v 0 [] (by simp)
  have h3 : (v.foldl cacheFoldStep (0, [])).2.toFinset = v.toFinset := by
    apply Finset.ext
    intro j
    simp only [List.mem_toFinset]
    rw [cacheFold_mem]
    simp
  have h4 := List.toFinset_card_of_nodup h2
  have h5 := List.card_toFinset v
  rw [h3, h5] at h4
  simp only [List.length_nil] at h1
  omega

/-- C1: for every combination of `push_down` and `double_check`,
`get_sub_buckets` calls the caller-supplied fetcher exactly once — with
`none` when `push_down` is false and `some filter_config` when it is true —
and the returned sequence is the local filter of the fetched one whenever
`push_down` is false or `double_check` is true, and the fetched sequence
unchanged exactly when `push_down` is true and `double_check` is false. -/
theorem getSubBuckets_decision_table {D C S : Type} (pd dc : Bool) (db : D)
    (b : Bucket) (g : D → Bucket → Option C → Except Event (List S) × D)
    (f : List S → C → List S) (cfg : C) :
    (get_sub_buckets (db, ([] : List (Option C))) b (logGetSub g) f cfg
        pd dc).2.2
      = [if pd then some cfg else none]
  ∧ get_sub_buckets db b g f cfg pd dc
      = ((g db b (if pd then some cfg else none)).1.map
            (fun v => if (!pd || dc) then f v cfg else v),
          (g db b (if pd then some cfg else none)).2) := by
  refine ⟨?_, get_sub_buckets_eq db b g f cfg pd dc⟩
  simpa using get_sub_buckets_log db [] b g f cfg pd dc

/-- C2: a bucket absent from the signature store makes `bloom_check` return
`Missing` and makes the gated fetch return an empty Ok without running the
getter; a present bucket makes `bloom_check` return the comparator's decision
on the stored signature and the hash of the filter; the example comparator
decides by comparing the intersection with the computed signature. -/
theorem bloomGate_absent_skips_present_delegates {D B F T : Type}
    (bits : List (Bucket × B)) (hash : F → B) (check : B → B → BloomResult)
    (filter : F) (bk : Bucket)
    (g : D → Bucket → F → Except Event (List T) × D) (db : D) (n : Nat)
    (s c : BloomBits) :
    (mapLookup bits bk = none →
        bloom_check bits hash filter check bk = .Missing
      ∧ get_or_skip_if_missing (fun b2 f2 => bloom_check bits hash f2 check b2)
            (db, n) bk (countGetter g) filter
          = (.ok [], (db, n)))
  ∧ (∀ sb, mapLookup bits bk = some sb →
        bloom_check bits hash filter check bk = check sb (hash filter))
  ∧ (db_check s c = .MayExist ↔ BloomBits.and s c = c)
  ∧ (db_check s c = .Missing ↔ ¬ BloomBits.and s c = c) := by
  refine ⟨?_, ?_, ?_, ?_⟩
  · intro h
    have hbc : bloom_check bits hash filter check bk = .Missing := by
      unfold bloom_check
      rw [h]
    refine ⟨hbc, ?_⟩
    unfold get_or_skip_if_missing
    simp only [hbc]
  · intro sb h
    unfold bloom_check
    rw [h]
  · cases hb : BloomBits.and s c == c
    · have hne : ¬ BloomBits.and s c = c := by
        intro he
        rw [he] at hb
        simp at hb
      simp [db_check, hb, hne]
    · have heq : BloomBits.and s c = c := eq_of_beq hb
      simp [db_check, hb, heq]
  · cases hb : BloomBits.and s c == c
    · have hne : ¬ BloomBits.and s c = c := by
        intro he
        rw [he] at hb
        simp at hb
      simp [db_check, hb, hne]
    · have heq : BloomBits.and s c = c := eq_of_beq hb
      simp [db_check, hb, heq]

/-- C2 witness: skip on the absent bucket "z", delegation to the comparator
on the present bucket "a", and the intersection comparator at concrete
signatures, all at evaluated inputs. -/
theorem bloomGate_absent_skips_present_delegates_witness :
    bloom_check ([] : List (Bucket × BloomBits)) (fun _ : Unit => ⟨1, 2⟩) ()
        db_check (Bucket.new_checked "z") = .Missing
  ∧ bloom_check [(Bucket.new_checked "a", (⟨1, 2⟩ : BloomBits))]
        (fun _ : Unit => ⟨1, 2⟩) () db_check (Bucket.new_checked "a")
      = db_check ⟨1, 2⟩ ⟨1, 2⟩
  ∧ db_check ⟨3, 3⟩ ⟨1, 2⟩ = .MayExist
  ∧ get_or_skip_if_missing
        (fun b2 f2 => bloom_check ([] : List (Bucket × BloomBits))
            (fun _ : Unit => ⟨1, 2⟩) f2 db_check b2)
        (((), 0) : Unit × Nat) (Bucket.new_checked "z")
        (countGetter (fun (d : Unit) (_ : Bucket) (_ : Unit) =>
          ((.ok ([] : List Unit) : Except Event (List Unit)), d))) ()
      = (.ok [], ((), 0)) := by
  have h1 := bloomGate_absent_skips_present_delegates
      ([] : List (Bucket × BloomBits)) (fun _ : Unit => (⟨1, 2⟩ : BloomBits))
      db_check () (Bucket.new_checked "z")
      (fun (d : Unit) (_ : Bucket) (_ : Unit) =>
        ((.ok ([] : List Unit) : Except Event (List Unit)), d)) () 0
      ⟨3, 3⟩ ⟨1, 2⟩
  have h2 := bloomGate_absent_skips_present_delegates
      [(Bucket.new_checked "a", (⟨1, 2⟩ : BloomBits))]
      (fun _ : Unit => (⟨1, 2⟩ : BloomBits)) db_check ()
      (Bucket.new_checked "a")
      (fun (d : Unit) (_ : Bucket) (_ : Unit) =>
        ((.ok ([] : List Unit) : Except Event (List Unit)), d)) () 0
      ⟨3, 3⟩ ⟨1, 2⟩
  refine ⟨(h1.1 rfl).1, h2.2.1 ⟨1, 2⟩ (by decide), ?_, (h1.1 rfl).2⟩
  exact (h1.2.2.1).mpr (by decide)

/-- C3: the pushdown decision returned by `pushdown_by_storage_new` is a pure
Boolean function of the weighted cost estimates: it is `true` exactly when
the weighted sequential cost is at least the weighted indexed cost, so in
particular equality of the two costs yields `true`. -/
theorem pushdown_decision_boundary {C : Type} (est_ix est_sq : C → ℚ)
    (ixc sqc : ℚ) (cfg : C) :
    (pushdown_by_storage_new est_ix est_sq ixc sqc cfg = true
        ↔ ixc * est_ix cfg ≤ sqc * est_sq cfg)
  ∧ (sqc * est_sq cfg = ixc * est_ix cfg →
        pushdown_by_storage_new est_ix est_sq ixc sqc cfg = true) := by
  constructor
  · unfold pushdown_by_storage_new
    simp [not_lt]
  · intro h
    unfold pushdown_by_storage_new
    simp only [Bool.not_eq_true', decide_eq_false_iff_not, not_lt]
    exact le_of_eq h.symm

/-- C3 witness: equal weighted costs (3 * 2 on both sides) make the decision
function return `true`. -/
theorem pushdown_decision_boundary_witness :
    ((3 : ℚ) * 2 = 3 * 2)
  ∧ pushdown_by_storage_new (fun _ : Unit => (2 : ℚ)) (fun _ => (2 : ℚ)) 3 3 ()
      = true :=
  ⟨rfl, (pushdown_decision_boundary (fun _ : Unit => (2 : ℚ))
      (fun _ => (2 : ℚ)) 3 3 ()).2 rfl⟩

/-- C4: a successful refresh returns the count of distinct bucket keys:
`update_bloom_bits` counts only the first occurrence of each key (a later
duplicate overwrites the stored value without incrementing the count, so the
value left behind is the last one fetched), and `update_cache_btree` counts
only first-time set insertions. -/
theorem refresh_counts_distinct_keys {D B : Type} (db db2 : D)
    (m0 : List (Bucket × B)) (c0 : List Bucket) (bb k : Bucket)
    (v : List (Bucket × B)) (names : List String) :
    (update_bloom_bits m0 db (fun d _ => (.ok v, d)) bb).1
        = .ok (v.map Prod.fst).dedup.length
  ∧ mapLookup (update_bloom_bits m0 db (fun d _ => (.ok v, d)) bb).2.1 k
        = lastVal v k
  ∧ (update_cache_btree c0 db2 (fun d => (.ok names, d))).1
        = .ok (names.map Bucket.new_checked).dedup.length := by
  refine ⟨?_, ?_, ?_⟩
  · rw [update_bloom_bits_ok]
    exact congrArg Except.ok (bloomFold_count_distinct v)
  · have h := bloomFold_lookup v 0 [] k
    rw [update_bloom_bits_ok]
    show mapLookup (v.foldl bloomFoldStep (0, [])).2 k = lastVal v k
    cases hlast : lastVal v k with
    | none =>
      rw [h, hlast]
      rfl
    | some x =>
      rw [h, hlast]
  · rw [update_cache_btree_ok]
    exact congrArg Except.ok (cacheFold_count_distinct _)

/-- C5: when the caller-supplied lister fails, the refresh propagates the
error unchanged and leaves the store empty (cleared), never half-populated. -/
theorem refresh_error_leaves_cleared {D B : Type} (db db2 : D)
    (m0 : List (Bucket × B)) (c0 : List Bucket) (bb : Bucket) (e e2 : Event)
    (g : D → Bucket → Except Event (List (Bucket × B)) × D)
    (l : D → Except Event (List String) × D)
    (h1 : (g db bb).1 = .error e) (h2 : (l db2).1 = .error e2) :
    update_bloom_bits m0 db g bb = (.error e, [], (g db bb).2)
  ∧ update_cache_btree c0 db2 l = (.error e2, [], (l db2).2) := by
  constructor
  · unfold update_bloom_bits
    rcases hg : g db bb with ⟨r, d'⟩
    rw [hg] at h1
    cases r with
    | error e' =>
      have he : e' = e := by simpa using h1
      subst he
      rfl
    | ok v => simp at h1
  · unfold update_cache_btree
    rcases hl : l db2 with ⟨r, d'⟩
    rw [hl] at h2
    cases r with
    | error e' =>
      have he : e' = e2 := by simpa using h2
      subst he
      rfl
    | ok v => simp at h2

/-- C5 witness: a failing lister at concrete inputs yields the error and an
empty store for both refresh functions. -/
theorem refresh_error_leaves_cleared_witness :
    update_bloom_bits [(Bucket.new_checked "a", 7)] ()
        (fun (d : Unit) (_ : Bucket) =>
          ((.error (Event.UnexpectedError "x") :
              Except Event (List (Bucket × Nat))), d))
        (Bucket.new_checked "m")
      = (.error (Event.UnexpectedError "x"), [], ())
  ∧ update_cache_btree [Bucket.new_checked "a"] ()
        (fun (d : Unit) =>
          ((.error (Event.UnableToConnect "y") :
              Except Event (List String)), d))
      = (.error (Event.UnableToConnect "y"), [], ()) :=
  refresh_error_leaves_cleared () () [(Bucket.new_checked "a", 7)]
    [Bucket.new_checked "a"] (Bucket.new_checked "m")
    (Event.UnexpectedError "x") (Event.UnableToConnect "y")
    (fun (d : Unit) (_ : Bucket) =>
      ((.error (Event.UnexpectedError "x") :
          Except Event (List (Bucket × Nat))), d))
    (fun (d : Unit) =>
      ((.error (Event.UnableToConnect "y") : Except Event (List String)), d))
    rfl rfl

/-- C6: the exact-membership gate delegates to the getter and returns its
result when the predicate is true, and returns an empty Ok without running
the getter when the predicate is false. -/
theorem cacheGate_skip_or_delegate {D F T : Type} (cache : Bucket → Bool)
    (db : D) (n : Nat) (b : Bucket)
    (g : D → Bucket → F → Except Event (List T) × D) (f : F) :
    get_or_skip_if_bucket_missing cache (db, n) b (countGetter g) f
      = if cache b
        then ((g db b f).1, ((g db b f).2, n + 1))
        else (.ok [], (db, n)) := by
  unfold get_or_skip_if_bucket_missing countGetter
  cases hc : cache b <;> simp [hc]

/-- C7 counterexample: with `push_down = false`, `double_check = false` and a
local filter that drops everything, `get_sub_buckets` returns `Ok []` while
the delegated fetcher returned `Ok [1]` — the affirmative-path result is not
the fetcher's Ok value verbatim. -/
theorem gate_verbatim_counterexample :
    (get_sub_buckets () (Bucket.new_checked "b")
        (fun (d : Unit) (_ : Bucket) (_ : Option Nat) =>
          ((.ok [1] : Except Event (List Nat)), d))
        (fun _ _ => ([] : List Nat)) 0 false false).1 = .ok []
  ∧ ((fun (d : Unit) (_ : Bucket) (_ : Option Nat) =>
        ((.ok [1] : Except Event (List Nat)), d)) () (Bucket.new_checked "b")
          none).1 = .ok [1]
  ∧ (Except.ok ([] : List Nat) : Except Event (List Nat)) ≠ Except.ok [1] := by
  refine ⟨rfl, rfl, ?_⟩
  intro h
  have hl := Except.ok.inj h
  simp at hl

/-- C7 (amended): when a gate decision is affirmative, the bloom and exact
gates return the delegated fetcher's result verbatim; `get_sub_buckets`
returns the fetched Ok value verbatim exactly when `push_down` holds and
`double_check` does not, and otherwise passes the Ok value through the pure
local filter only; a fetcher error propagates unchanged in all three, every
error in their output comes from the fetcher, and the bloom and exact gates
themselves only ever add the empty Ok result. -/
theorem gates_propagate_fetcher_result {D F T C S : Type}
    (bloom : Bucket → F → BloomResult) (cache : Bucket → Bool) (db : D)
    (b : Bucket) (g : D → Bucket → F → Except Event (List T) × D) (f : F)
    (g3 : D → Bucket → Option C → Except Event (List S) × D)
    (flt : List S → C → List S) (cfg : C) (pd dc : Bool) (e : Event)
    (v : List S) :
    (bloom b f = .MayExist → get_or_skip_if_missing bloom db b g f = g db b f)
  ∧ (cache b = true → get_or_skip_if_bucket_missing cache db b g f = g db b f)
  ∧ (get_or_skip_if_missing bloom db b g f = (.ok [], db)
      ∨ get_or_skip_if_missing bloom db b g f = g db b f)
  ∧ (get_or_skip_if_bucket_missing cache db b g f = (.ok [], db)
      ∨ get_or_skip_if_bucket_missing cache db b g f = g db b f)
  ∧ ((g3 db b (if pd then some cfg else none)).1 = .error e →
      (get_sub_buckets db b g3 flt cfg pd dc).1 = .error e)
  ∧ ((get_sub_buckets db b g3 flt cfg pd dc).1 = .error e →
      (g3 db b (if pd then some cfg else none)).1 = .error e)
  ∧ ((g3 db b (if pd then some cfg else none)).1 = .ok v →
      (get_sub_buckets db b g3 flt cfg pd dc).1
        = .ok (if pd && !dc then v else flt v cfg)) := by
  refine ⟨?_, ?_, ?_, ?_, ?_, ?_, ?_⟩
  · intro h
    unfold get_or_skip_if_missing
    rw [h]
  · intro h
    unfold get_or_skip_if_bucket_missing
    rw [h]
  · cases hb : bloom b f
    · right
      unfold get_or_skip_if_missing
      rw [hb]
    · left
      unfold get_or_skip_if_missing
      rw [hb]
  · cases hc : cache b
    · left
      unfold get_or_skip_if_bucket_missing
      rw [hc]
    · right
      unfold get_or_skip_if_bucket_missing
      rw [hc]
  · intro h
    rw [get_sub_buckets_eq, h]
    rfl
  · intro h
    rw [get_sub_buckets_eq] at h
    rcases hr : (g3 db b (if pd then some cfg else none)).1 with e' | v'
    · rw [hr] at h
      simp only [Except.map] at h
      exact h
    · rw [hr] at h
      simp [Except.map] at h
  · intro h
    rw [get_sub_buckets_eq, h]
    cases pd <;> cases dc <;> simp [Except.map]

/-- C7 amended-claim witness: affirmative bloom and exact gates at a concrete
fetcher return its result, and a pushdown-only `get_sub_buckets` returns the
fetched list verbatim. -/
theorem gates_propagate_fetcher_result_witness :
    get_or_skip_if_missing (fun _ _ => BloomResult.MayExist) ()
        (Bucket.new_checked "b")
        (fun (d : Unit) (_ : Bucket) (_ : Unit) =>
          ((.ok ([] : List Unit) : Except Event (List Unit)), d)) ()
      = (.ok [], ())
  ∧ get_or_skip_if_bucket_missing (fun _ => true) () (Bucket.new_checked "b")
        (fun (d : Unit) (_ : Bucket) (_ : Unit) =>
          ((.ok ([] : List Unit) : Except Event (List Unit)), d)) ()
      = (.ok [], ())
  ∧ (get_sub_buckets () (Bucket.new_checked "b")
        (fun (d : Unit) (_ : Bucket) (_ : Option Nat) =>
          ((.ok [2] : Except Event (List Nat)), d))
        (fun v _ => v) 0 true false).1 = .ok [2] := by
  have h := gates_propagate_fetcher_result
      (fun (_ : Bucket) (_ : Unit) => BloomResult.MayExist) (fun _ => true) ()
      (Bucket.new_checked "b")
      (fun (d : Unit) (_ : Bucket) (_ : Unit) =>
        ((.ok ([] : List Unit) : Except Event (List Unit)), d)) ()
      (fun (d : Unit) (_ : Bucket) (_ : Option Nat) =>
        ((.ok [2] : Except Event (List Nat)), d))
      (fun v _ => v) 0 true false (Event.UnexpectedError "x") [2]
  refine ⟨h.1 rfl, h.2.1 rfl, ?_⟩
  have h7 := h.2.2.2.2.2.2 rfl
  simpa using h7

/-- C8: refresh is idempotent for a stable source list: running the refresh a
second time, starting from the store and db state the first run produced,
yields the identical result triple (same count, same store contents). -/
theorem refresh_idempotent {D B : Type} (db db2 : D) (m0 : List (Bucket × B))
    (c0 : List Bucket) (bb : Bucket) (v : List (Bucket × B))
    (names : List String) :
    update_bloom_bits (update_bloom_bits m0 db (fun d _ => (.ok v, d)) bb).2.1
        (update_bloom_bits m0 db (fun d _ => (.ok v, d)) bb).2.2
        (fun d _ => (.ok v, d)) bb
      = update_bloom_bits m0 db (fun d _ => (.ok v, d)) bb
  ∧ update_cache_btree
        (update_cache_btree c0 db2 (fun d => (.ok names, d))).2.1
        (update_cache_btree c0 db2 (fun d => (.ok names, d))).2.2
        (fun d => (.ok names, d))
      = update_cache_btree c0 db2 (fun d => (.ok names, d)) :=
  ⟨rfl, rfl⟩

/-- C9: after a successful refresh the returned count equals the number of
entries of the resulting container, the container's keys are pairwise
distinct, and they are exactly the bucket identifiers occurring in the
fetched list. -/
theorem refresh_count_matches_container {D B : Type} (db db2 : D)
    (m0 : List (Bucket × B)) (c0 : List Bucket) (bb k bk : Bucket)
    (v : List (Bucket × B)) (names : List String) :
    (update_bloom_bits m0 db (fun d _ => (.ok v, d)) bb).1
        = .ok (update_bloom_bits m0 db (fun d _ => (.ok v, d)) bb).2.1.length
  ∧ ((update_bloom_bits m0 db (fun d _ => (.ok v, d)) bb).2.1.map
        Prod.fst).Nodup
  ∧ (k ∈ (update_bloom_bits m0 db (fun d _ => (.ok v, d)) bb).2.1.map Prod.fst
        ↔ k ∈ v.map Prod.fst)
  ∧ (update_cache_btree c0 db2 (fun d => (.ok names, d))).1
        = .ok (update_cache_btree c0 db2 (fun d => (.ok names, d))).2.1.length
  ∧ (update_cache_btree c0 db2 (fun d => (.ok names, d))).2.1.Nodup
  ∧ (bk ∈ (update_cache_btree c0 db2 (fun d => (.ok names, d))).2.1
        ↔ bk ∈ names.map Bucket.new_checked) := by
  refine ⟨?_, ?_, ?_, ?_, ?_, ?_⟩
  · rw [update_bloom_bits_ok]
    have h := bloomFold_count_length v 0 []
    simp only [List.length_nil] at h
    have h2 : (v.foldl bloomFoldStep (0, ([] : List (Bucket × B)))).1
        = (v.foldl bloomFoldStep (0, ([] : List (Bucket × B)))).2.length := by
      omega
    exact congrArg Except.ok h2
  · rw [update_bloom_bits_ok]
    exact bloomFold_keys_nodup v 0 [] (by simp)
  · rw [update_bloom_bits_ok]
    have h := bloomFold_keys_mem v 0 ([] : List (Bucket × B)) k
    simpa using h
  · rw [update_cache_btree_ok]
    have h := cacheFold_count_length (names.map Bucket.new_checked) 0 []
    simp only [List.length_nil] at h
    have h2 : ((names.map Bucket.new_checked).foldl cacheFoldStep
          (0, ([] : List Bucket))).1
        = ((names.map Bucket.new_checked).foldl cacheFoldStep
          (0, ([] : List Bucket))).2.length := by
      omega
    exact congrArg Except.ok h2
  · rw [update_cache_btree_ok]
    exact cacheFold_nodup (names.map Bucket.new_checked) 0 [] (by simp)
  · rw [update_cache_btree_ok]
    have h := cacheFold_mem (names.map Bucket.new_checked) 0 [] bk
    simpa using h

/-- C10: `Bucket::new_checked` stores the string unmodified (no validation)
and `as_str` returns it; equality and ordering of buckets coincide with
equality and ordering of their name strings. -/
theorem bucket_name_roundtrip_eq_ord (s : String) (a b : Bucket) :
    (Bucket.new_checked s).as_str = s
  ∧ (a = b ↔ a.name = b.name)
  ∧ (a < b ↔ a.name < b.name) := by
  refine ⟨rfl, ?_, Iff.rfl⟩
  constructor
  · intro h
    rw [h]
  · intro h
    cases a
    cases b
    cases h
    rfl
